import Mathlib

/-!
Shallow embedding of the convergence-analysis examples
`const_surf_conc.py` and `analytic_N_scaling.py`.

The first part embeds the analytic reference model (`analytic` in
`const_surf_conc.py`): the closed-form concentration for diffusion from
a constant-concentration boundary, `c(x,t) = c_s * erfc(x / (2*sqrt(D*t)))`.
The complementary error function (imported from `scipy.special` in the
source) is modelled by its standard mathematical definition via the
Gaussian integral.
-/

namespace Chemreac

open MeasureTheory intervalIntegral

/-- The error function `erf z = (2/sqrt pi) * int_0^z exp(-s^2) ds`
(the mathematical function computed by `scipy.special.erf`). -/
noncomputable def erf (z : ℝ) : ℝ :=
  (2 / Real.sqrt Real.pi) * ∫ s in (0:ℝ)..z, Real.exp (-s ^ 2)

/-- The complementary error function `erfc z = 1 - erf z`
(the mathematical function computed by `scipy.special.erfc`). -/
noncomputable def erfc (z : ℝ) : ℝ := 1 - erf z

/-- Scalar body of `analytic` in `const_surf_conc.py`:
`c_s * erfc(x' / (2*(D*t)**0.5))` where `x' = exp(x) if logx else x`. -/
noncomputable def analyticPoint (xj ti D : ℝ) (logx : Bool) (c_s : ℝ) : ℝ :=
  c_s * erfc ((if logx then Real.exp xj else xj) / (2 * Real.sqrt (D * ti)))

/-- `analytic(x, t, D, x0, xend, logx, c_s)` from `const_surf_conc.py`.
The source reshapes `t` to a column vector so numpy broadcasting yields a
matrix indexed `[time][space]`; we model it as the list of rows over `t`,
each row mapping over `x`.  (The `x0`/`xend` parameters of the Python
function are unused by its body and therefore omitted.) -/
noncomputable def analytic (x t : List ℝ) (D : ℝ) (logx : Bool) (c_s : ℝ) :
    List (List ℝ) :=
  t.map (fun ti => x.map (fun xj => analyticPoint xj ti D logx c_s))

/-! ### Basic facts about `erf`/`erfc` -/

theorem gaussian_integrand_nonneg (s : ℝ) : 0 ≤ Real.exp (-s ^ 2) :=
  (Real.exp_pos _).le

theorem gaussian_intervalIntegrable (a b : ℝ) :
    IntervalIntegrable (fun s => Real.exp (-s ^ 2)) volume a b := by
  apply Continuous.intervalIntegrable
  continuity

theorem erf_zero : erf 0 = 0 := by
  simp [erf]

theorem erf_nonneg {z : ℝ} (hz : 0 ≤ z) : 0 ≤ erf z := by
  have h1 : 0 ≤ (2 / Real.sqrt Real.pi) := by positivity
  have h2 : 0 ≤ ∫ s in (0:ℝ)..z, Real.exp (-s ^ 2) := by
    apply intervalIntegral.integral_nonneg hz
    intro u _
    exact gaussian_integrand_nonneg u
  exact mul_nonneg h1 h2

theorem erf_mono {a b : ℝ} (ha : 0 ≤ a) (hab : a ≤ b) : erf a ≤ erf b := by
  have h1 : 0 ≤ (2 / Real.sqrt Real.pi) := by positivity
  have h2 : (∫ s in (0:ℝ)..a, Real.exp (-s ^ 2)) ≤
      ∫ s in (0:ℝ)..b, Real.exp (-s ^ 2) := by
    apply intervalIntegral.integral_mono_interval le_rfl ha hab
    · filter_upwards with s using gaussian_integrand_nonneg s
    · exact gaussian_intervalIntegrable 0 b
  exact mul_le_mul_of_nonneg_left h2 h1

theorem gaussian_halfline : ∫ s in Set.Ioi (0:ℝ), Real.exp (-s ^ 2) =
    Real.sqrt Real.pi / 2 := by
  have h := integral_gaussian_Ioi 1
  simpa using h

theorem erf_le_one {z : ℝ} (hz : 0 ≤ z) : erf z ≤ 1 := by
  have hint : (∫ s in (0:ℝ)..z, Real.exp (-s ^ 2)) ≤ Real.sqrt Real.pi / 2 := by
    rw [intervalIntegral.integral_of_le hz, ← gaussian_halfline]
    apply setIntegral_mono_set
    · exact ((integrable_exp_neg_mul_sq one_pos).integrableOn).congr_fun
        (fun s _ => by ring_nf) measurableSet_Ioi
    · filter_upwards with s using gaussian_integrand_nonneg s
    · exact (Set.Ioc_subset_Ioi_self).eventuallyLE
  have hpi : 0 < Real.sqrt Real.pi := Real.sqrt_pos.mpr Real.pi_pos
  have h2 : erf z ≤ (2 / Real.sqrt Real.pi) * (Real.sqrt Real.pi / 2) := by
    apply mul_le_mul_of_nonneg_left hint (by positivity)
  calc erf z ≤ (2 / Real.sqrt Real.pi) * (Real.sqrt Real.pi / 2) := h2
    _ = 1 := by field_simp

theorem erfc_nonneg {z : ℝ} (hz : 0 ≤ z) : 0 ≤ erfc z := by
  have := erf_le_one hz
  simp only [erfc]
  linarith

theorem erfc_le_one {z : ℝ} (hz : 0 ≤ z) : erfc z ≤ 1 := by
  have := erf_nonneg hz
  simp only [erfc]
  linarith

theorem erfc_anti {a b : ℝ} (ha : 0 ≤ a) (hab : a ≤ b) : erfc b ≤ erfc a := by
  have := erf_mono ha hab
  simp only [erfc]
  linarith

theorem erfc_zero : erfc 0 = 1 := by
  simp [erfc, erf_zero]

theorem analytic_getD {x t : List ℝ} {D c_s : ℝ} {logx : Bool} {i j : ℕ}
    (hi : i < t.length) (hj : j < x.length) :
    ((analytic x t D logx c_s).getD i []).getD j 0 =
      analyticPoint (x.getD j 0) (t.getD i 0) D logx c_s := by
  have h1 : (analytic x t D logx c_s).getD i [] =
      x.map (fun xj => analyticPoint xj (t.getD i 0) D logx c_s) := by
    rw [analytic, List.getD_eq_getElem _ _ (by simpa using hi), List.getElem_map,
      List.getD_eq_getElem _ _ hi]
  rw [h1, List.getD_eq_getElem _ _ (by simpa using hj), List.getElem_map,
    List.getD_eq_getElem _ _ hj]

/-- C1: `analytic` returns the matrix indexed `[time][space]` whose entry at
(time `i`, space `j`) equals `c_s * erfc(x'_j / (2*sqrt(D*t_i)))`, where
`x'_j = exp(x_j)` when `logx` is set and `x'_j = x_j` otherwise. -/
theorem C1_analytic_entry (x t : List ℝ) (D c_s : ℝ) (logx : Bool) (i j : ℕ)
    (hi : i < t.length) (hj : j < x.length) :
    (analytic x t D logx c_s).length = t.length ∧
    ((analytic x t D logx c_s).getD i []).length = x.length ∧
    ((analytic x t D logx c_s).getD i []).getD j 0 =
      c_s * erfc ((if logx then Real.exp (x.getD j 0) else x.getD j 0) /
        (2 * Real.sqrt (D * t.getD i 0))) := by
  refine ⟨by simp [analytic], ?_, ?_⟩
  · rw [analytic, List.getD_eq_getElem _ _ (by simpa using hi)]
    simp
  · rw [analytic_getD hi hj, analyticPoint]

/-- Witness for C1 at `x = [0]`, `t = [1]`, `D = 1`, `c_s = 1`, `logx = false`. -/
theorem C1_analytic_entry_witness :
    (0 < ([(1:ℝ)]).length ∧ 0 < ([(0:ℝ)]).length) ∧
    ((analytic [0] [1] 1 false 1).length = ([(1:ℝ)]).length ∧
     ((analytic [0] [1] 1 false 1).getD 0 []).length = ([(0:ℝ)]).length ∧
     ((analytic [0] [1] 1 false 1).getD 0 []).getD 0 0 =
       1 * erfc ((if false then Real.exp (([(0:ℝ)]).getD 0 0)
                  else ([(0:ℝ)]).getD 0 0) /
         (2 * Real.sqrt (1 * ([(1:ℝ)]).getD 0 0)))) :=
  ⟨⟨by simp, by simp⟩, C1_analytic_entry [0] [1] 1 1 false 0 0 (by simp) (by simp)⟩

/-- C6 (amended): for `D > 0`, `t > 0`, a nonnegative surface concentration
`c_s` and coordinates `0 ≤ x1 ≤ x2`, the analytic value lies in
`[0, c_s]` and is weakly decreasing in the coordinate, for either
coordinate convention. -/
theorem C6_analytic_range_antitone (D t c_s x1 x2 : ℝ) (logx : Bool)
    (hD : 0 < D) (ht : 0 < t) (hc : 0 ≤ c_s) (hx1 : 0 ≤ x1) (hx12 : x1 ≤ x2) :
    (0 ≤ analyticPoint x1 t D logx c_s ∧ analyticPoint x1 t D logx c_s ≤ c_s) ∧
    analyticPoint x2 t D logx c_s ≤ analyticPoint x1 t D logx c_s := by
  have hDt : 0 < Real.sqrt (D * t) := Real.sqrt_pos.mpr (mul_pos hD ht)
  have hden : 0 < 2 * Real.sqrt (D * t) := by positivity
  have htr1 : 0 ≤ (if logx then Real.exp x1 else x1) := by
    cases logx
    · simpa using hx1
    · simpa using (Real.exp_pos x1).le
  have htr12 : (if logx then Real.exp x1 else x1) ≤
      (if logx then Real.exp x2 else x2) := by
    cases logx
    · simpa using hx12
    · simpa using Real.exp_le_exp.mpr hx12
  have hz1 : 0 ≤ (if logx then Real.exp x1 else x1) / (2 * Real.sqrt (D * t)) :=
    div_nonneg htr1 hden.le
  have hz12 : (if logx then Real.exp x1 else x1) / (2 * Real.sqrt (D * t)) ≤
      (if logx then Real.exp x2 else x2) / (2 * Real.sqrt (D * t)) := by
    gcongr
  refine ⟨⟨?_, ?_⟩, ?_⟩
  · exact mul_nonneg hc (erfc_nonneg hz1)
  · calc c_s * erfc _ ≤ c_s * 1 :=
        mul_le_mul_of_nonneg_left (erfc_le_one hz1) hc
      _ = c_s := mul_one c_s
  · exact mul_le_mul_of_nonneg_left (erfc_anti hz1 hz12) hc

/-- Witness for C6 (amended) at `D = 1`, `t = 1`, `c_s = 1`, `x1 = 0`,
`x2 = 1`, `logx = false`. -/
theorem C6_analytic_range_antitone_witness :
    ((0:ℝ) < 1 ∧ (0:ℝ) < 1 ∧ (0:ℝ) ≤ 1 ∧ (0:ℝ) ≤ 0 ∧ (0:ℝ) ≤ 1) ∧
    ((0 ≤ analyticPoint 0 1 1 false 1 ∧ analyticPoint 0 1 1 false 1 ≤ 1) ∧
     analyticPoint 1 1 1 false 1 ≤ analyticPoint 0 1 1 false 1) :=
  ⟨⟨zero_lt_one, zero_lt_one, zero_le_one, le_refl 0, zero_le_one⟩,
   C6_analytic_range_antitone 1 1 1 0 1 false zero_lt_one zero_lt_one
     zero_le_one (le_refl 0) zero_le_one⟩

/-- `np.linspace(start, stop, num)`: `num` evenly spaced samples whose first
element is `start` and whose last element is `stop`. -/
noncomputable def linspace (a b : ℝ) (n : ℕ) : List ℝ :=
  if n = 1 then [a]
  else (List.range n).map (fun (i : ℕ) => a + (i : ℝ) * (b - a) / ((n : ℝ) - 1))

theorem linspace_length (a b : ℝ) (n : ℕ) : (linspace a b n).length = n := by
  rw [linspace]
  by_cases h : n = 1
  · simp [h]
  · rw [if_neg h, List.length_map, List.length_range]

theorem linspace_getD_zero (a b : ℝ) (n : ℕ) (hn : 1 ≤ n) :
    (linspace a b n).getD 0 0 = a := by
  rw [linspace]
  by_cases h : n = 1
  · simp [h]
  · rw [if_neg h]
    rw [List.getD_eq_getElem _ _
      (by rw [List.length_map, List.length_range]; omega)]
    rw [List.getElem_map, List.getElem_range]
    norm_num

/-- Initial-time validation and output-time construction of `integrate_rd` in
`const_surf_conc.py`: the guard `if t0 == 0.0: raise ValueError(...)` is
followed by `tout = np.linspace(t0, tend, nt)`. -/
noncomputable def integrate_rd_tout (t0 tend : ℝ) (nt : ℕ) :
    Except String (List ℝ) :=
  if t0 = 0 then Except.error "t0==0 => Dirac delta function C0 profile."
  else Except.ok (linspace t0 tend nt)

/-- C2 (amended): `integrate_rd` fails with the domain error exactly when
`t0 = 0`; any other initial time — in particular a negative one, which puts
non-positive times into the output-time vector — passes the guard, so
evaluation is not protected against all non-positive times. -/
theorem C2_guard_iff (t0 tend : ℝ) (nt : ℕ) :
    (∃ e, integrate_rd_tout t0 tend nt = Except.error e) ↔ t0 = 0 := by
  constructor
  · rintro ⟨e, he⟩
    by_contra h
    rw [integrate_rd_tout, if_neg h] at he
    exact Except.noConfusion he
  · intro h
    exact ⟨_, by rw [integrate_rd_tout, if_pos h]⟩

/-- C2 counterexample: for `t0 = -1`, `tend = 13`, `nt = 42` the guard does
not fire: `integrate_rd` silently succeeds although the output-time vector
contains the non-positive time `-1` as its first element. -/
theorem C2_counterexample :
    integrate_rd_tout (-1) 13 42 = Except.ok (linspace (-1) 13 42) ∧
    (linspace (-1) 13 42).getD 0 0 = -1 ∧
    ((-1 : ℝ) ≤ 0) ∧ (linspace (-1) 13 42).length = 42 := by
  refine ⟨?_, ?_, by norm_num, linspace_length (-1) 13 42⟩
  · rw [integrate_rd_tout, if_neg (by norm_num)]
  · rw [linspace_getD_zero (-1) 13 42 (by norm_num)]

/-- C6 counterexample: the claim quantifies over *any* surface concentration,
but for the negative surface concentration `c_s = -1` (with `D = 1`, `t = 1`,
`x = 0`, `logx = false`) the returned value is `-1`, which does not lie in
the interval `[0, c_s]`; so the claim as stated is false. -/
theorem C6_counterexample :
    analyticPoint 0 1 1 false (-1) = -1 ∧
    ¬ (0 ≤ analyticPoint 0 1 1 false (-1) ∧
       analyticPoint 0 1 1 false (-1) ≤ -1) := by
  have h : analyticPoint 0 1 1 false (-1) = -1 := by
    simp [analyticPoint, erfc_zero]
  refine ⟨h, ?_⟩
  rw [h]
  intro hcon
  linarith [hcon.1]

/-!
### The sweep loop of `analytic_N_scaling.main`

The per-point call `integrate_rd(N=N, nstencil=..., k=..., geom=..., ...)`
delegates to the external solver, which may raise.  The loop itself is the
bare list comprehension `[integrate_rd(...) for N in Ns]` with no
`try`/`except` around it, which we embed as `mapM` in the `Except` monad:
an exception raised at any point propagates out of the whole comprehension.
-/

/-- The sweep loop body of `main` in `analytic_N_scaling.py`:
`[integrate_rd(N=N, ...) for N in Ns]`, with the external solver call
abstracted as `solve`. -/
def runSweepPoints {α : Type} (solve : ℕ → Except String α) (ns : List ℕ) :
    Except String (List α) :=
  ns.mapM solve

/-- C3 (amended): the sweep loop contains no exception handling, so an
external-solver exception at any single resolution aborts the whole sweep:
the comprehension yields an error and produces no result list at all. -/
theorem C3_sweep_aborts {α : Type} (solve : ℕ → Except String α)
    (ns : List ℕ) (n : ℕ) (e : String)
    (hmem : n ∈ ns) (hfail : solve n = Except.error e) :
    ∃ e2, runSweepPoints solve ns = Except.error e2 := by
  rw [runSweepPoints]
  induction ns with
  | nil => cases hmem
  | cons hd tl ih =>
    rw [List.mapM_cons]
    rcases List.mem_cons.mp hmem with h | h
    · subst h
      rw [hfail]
      exact ⟨e, rfl⟩
    · cases hhd : solve hd with
      | error e3 => exact ⟨e3, rfl⟩
      | ok a =>
        rcases ih h with ⟨e2, he2⟩
        rw [he2]
        exact ⟨e2, rfl⟩

/-- An external solver that fails (only) at resolution `N = 16`. -/
def solveFail16 : ℕ → Except String ℕ :=
  fun n => if n = 16 then Except.error "solver did not converge" else Except.ok n

/-- Witness for C3 (amended): the failing point `N = 16` of `solveFail16` is
in the ladder `[8, 16, 32]`, and the sweep indeed yields an error. -/
theorem C3_sweep_aborts_witness :
    (16 ∈ [8, 16, 32] ∧ solveFail16 16 = Except.error "solver did not converge") ∧
    ∃ e2, runSweepPoints solveFail16 [8, 16, 32] = Except.error e2 :=
  ⟨⟨by decide, rfl⟩,
   C3_sweep_aborts solveFail16 [8, 16, 32] 16 "solver did not converge"
     (by decide) rfl⟩

/-- C3 counterexample: with the solver failing at `N = 16`, the sweep over
`[8, 16, 32]` returns the propagated error — it does not continue to `N = 32`
and produces no result set — contradicting the claimed
record-as-undefined-and-continue policy. -/
theorem C3_counterexample :
    runSweepPoints solveFail16 [8, 16, 32] =
      Except.error "solver did not converge" ∧
    ¬ ∃ l, runSweepPoints solveFail16 [8, 16, 32] = Except.ok l := by
  have h : runSweepPoints solveFail16 [8, 16, 32] =
      Except.error "solver did not converge" := rfl
  refine ⟨h, ?_⟩
  rintro ⟨l, hl⟩
  rw [h] at hl
  exact Except.noConfusion hl

/-- Resolution-ladder construction of `main` in `analytic_N_scaling.py`:
`Ns = [8*(2**i) for i in range(nNs)]` when no explicit list is given,
otherwise the explicit parsed list, with `nNs = len(Ns)`. -/
def resolveNs (nNs : ℕ) : Option (List ℕ) → List ℕ × ℕ
  | none => ((List.range nNs).map (fun (i : ℕ) => 8 * 2 ^ i), nNs)
  | some l => (l, l.length)

/-- C7: with no explicit list the ladder is `nNs` doublings from base 8
(`Ns[i] = 8 * 2^i`; the default `nNs = 7` yields `[8, ..., 512]`), and an
explicit list is used verbatim with `nNs` set to its length. -/
theorem C7_resolution_ladder (nNs i : ℕ) (hi : i < nNs) (l : List ℕ) :
    resolveNs 7 none = ([8, 16, 32, 64, 128, 256, 512], 7) ∧
    (resolveNs nNs none).1.getD i 0 = 8 * 2 ^ i ∧
    (resolveNs nNs none).2 = nNs ∧
    resolveNs nNs (some l) = (l, l.length) := by
  refine ⟨by decide, ?_, rfl, rfl⟩
  rw [resolveNs]
  rw [List.getD_eq_getElem _ _ (by rw [List.length_map, List.length_range]; omega)]
  rw [List.getElem_map, List.getElem_range]

/-- Witness for C7 at `nNs = 7`, `i = 3`, `l = [10, 20]`. -/
theorem C7_resolution_ladder_witness :
    (3 < 7) ∧
    (resolveNs 7 none = ([8, 16, 32, 64, 128, 256, 512], 7) ∧
     (resolveNs 7 none).1.getD 3 0 = 8 * 2 ^ 3 ∧
     (resolveNs 7 none).2 = 7 ∧
     resolveNs 7 (some [10, 20]) = ([10, 20], ([10, 20] : List ℕ).length)) :=
  ⟨by decide, C7_resolution_ladder 7 3 (by decide) [10, 20]⟩

/-- Degree-1 least-squares fit, `np.polyfit(xs, ys, 1)`: the returned pair is
`(slope, intercept)` of the line minimizing the sum of squared residuals,
with the closed-form normal-equation solution. -/
noncomputable def polyfit1 (xs ys : List ℝ) : ℝ × ℝ :=
  let n : ℝ := xs.length
  let sx := xs.sum
  let sy := ys.sum
  let sxy := (List.zipWith (fun a b => a * b) xs ys).sum
  let sxx := (xs.map (fun a => a ^ 2)).sum
  let slope := (n * sxy - sx * sy) / (n * sxx - sx ^ 2)
  (slope, (sy - slope * sx) / n)

/-- The per-triple regression of `main` in `analytic_N_scaling.py`:
`logNs = np.log(Ns)`, `logerr = np.log(err)`,
`p = np.polyfit(logNs[:nfit], logerr[:nfit], 1)`. -/
noncomputable def fitFor (ns : List ℕ) (err : List ℝ) (nfit : ℕ) : ℝ × ℝ :=
  polyfit1 ((ns.map (fun (n : ℕ) => Real.log n)).take nfit)
    ((err.map Real.log).take nfit)

/-- The value displayed as the empirical convergence order in `main`'s plot
legend: `round(-p[0], 1)`, the negated slope rounded to one decimal.  (Python
rounds exact ties to even; `round` rounds them up — the two agree away from
exact ties.) -/
noncomputable def reportedOrder (ns : List ℕ) (err : List ℝ) (nfit : ℕ) : ℝ :=
  ((round ((10 : ℝ) * (-(fitFor ns err nfit).1)) : ℤ) : ℝ) / 10

/-- C4 (amended): the log-log regression uses exactly the first `nfit` points
of the resolution ladder — the fit is unchanged if everything past the first
`nfit` points is dropped — and the reported empirical convergence order is
the negation of the fitted slope rounded to one decimal, hence within `1/20`
of the exact negated slope (but not in general equal to it). -/
theorem C4_fit_prefix_and_order (ns : List ℕ) (err : List ℝ) (nfit : ℕ) :
    fitFor ns err nfit = fitFor (ns.take nfit) (err.take nfit) nfit ∧
    |reportedOrder ns err nfit - (-(fitFor ns err nfit).1)| ≤ 1 / 20 := by
  constructor
  · rw [fitFor, fitFor, List.map_take, List.map_take, List.take_take,
      List.take_take, min_self]
  · rw [reportedOrder]
    set y : ℝ := -(fitFor ns err nfit).1 with hy
    have h := abs_sub_round ((10 : ℝ) * y)
    rw [abs_sub_comm] at h
    have heq : ((round ((10 : ℝ) * y) : ℤ) : ℝ) / 10 - y =
        (((round ((10 : ℝ) * y) : ℤ) : ℝ) - 10 * y) / 10 := by ring
    rw [heq, abs_div, abs_of_pos (show (0 : ℝ) < 10 by norm_num)]
    linarith

/-- The fitted slope is exactly `-51/25 = -2.04` for the two-point series
`err(N) = N ^ (-51/25)` over `Ns = [2, 4]`. -/
theorem fitFor_slope_sample :
    (fitFor [2, 4] [(2 : ℝ) ^ (-(51 : ℝ) / 25), (4 : ℝ) ^ (-(51 : ℝ) / 25)]
      2).1 = -(51 / 25) := by
  have hlog2 : Real.log ((2 : ℝ) ^ (-(51 : ℝ) / 25)) =
      (-(51 : ℝ) / 25) * Real.log 2 := Real.log_rpow (by norm_num) _
  have hlog4 : Real.log ((4 : ℝ) ^ (-(51 : ℝ) / 25)) =
      (-(51 : ℝ) / 25) * (2 * Real.log 2) := by
    rw [Real.log_rpow (by norm_num)]
    have h4 : (4 : ℝ) = 2 ^ (2 : ℕ) := by norm_num
    rw [h4, Real.log_pow]
    push_cast
    ring
  have hL : Real.log 2 ≠ 0 := ne_of_gt (Real.log_pos one_lt_two)
  have hcast4 : Real.log ((4 : ℕ) : ℝ) = 2 * Real.log 2 := by
    have h4 : ((4 : ℕ) : ℝ) = 2 ^ (2 : ℕ) := by norm_num
    rw [h4, Real.log_pow]
    push_cast
    ring
  have hcast2 : Real.log ((2 : ℕ) : ℝ) = Real.log 2 := by norm_num
  rw [fitFor]
  simp only [List.map_cons, List.map_nil, hlog2, hlog4, hcast2, hcast4,
    List.take, polyfit1, List.length_cons, List.length_nil, List.sum_cons,
    List.sum_nil, List.zipWith_cons_cons, List.zipWith_nil_right]
  push_cast
  field_simp
  ring_nf
  rw [← mul_pow, mul_inv_cancel₀ hL]
  norm_num

/-- C4 counterexample: for `Ns = [2, 4]` and `err(N) = N ^ (-2.04)` the fitted
slope is exactly `-2.04`, so the claimed reported value would be `2.04`; the
code reports `round(2.04, 1) = 2.0` instead, so the reported order is not the
exact negation of the fitted slope. -/
theorem C4_counterexample :
    reportedOrder [2, 4]
        [(2 : ℝ) ^ (-(51 : ℝ) / 25), (4 : ℝ) ^ (-(51 : ℝ) / 25)] 2 = 2 ∧
    -(fitFor [2, 4]
        [(2 : ℝ) ^ (-(51 : ℝ) / 25), (4 : ℝ) ^ (-(51 : ℝ) / 25)] 2).1 =
      51 / 25 ∧
    reportedOrder [2, 4]
        [(2 : ℝ) ^ (-(51 : ℝ) / 25), (4 : ℝ) ^ (-(51 : ℝ) / 25)] 2 ≠
      -(fitFor [2, 4]
        [(2 : ℝ) ^ (-(51 : ℝ) / 25), (4 : ℝ) ^ (-(51 : ℝ) / 25)] 2).1 := by
  have hs := fitFor_slope_sample
  have hround : round ((102 : ℝ) / 5) = 20 := by
    norm_num [round_eq]
  have hro : reportedOrder [2, 4]
      [(2 : ℝ) ^ (-(51 : ℝ) / 25), (4 : ℝ) ^ (-(51 : ℝ) / 25)] 2 = 2 := by
    rw [reportedOrder, hs]
    norm_num [hround]
  refine ⟨hro, by rw [hs]; norm_num, ?_⟩
  rw [hro, hs]
  norm_num

theorem zipWith_getD {α β γ : Type} (f : α → β → γ) (as : List α)
    (bs : List β) (i : ℕ) (da : α) (db : β) (dc : γ)
    (ha : i < as.length) (hb : i < bs.length) :
    (List.zipWith f as bs).getD i dc = f (as.getD i da) (bs.getD i db) := by
  rw [List.getD_eq_getElem _ _ (by rw [List.length_zipWith]; omega)]
  rw [List.getElem_zipWith]
  rw [List.getD_eq_getElem _ _ ha, List.getD_eq_getElem _ _ hb]

theorem map_getD {α β : Type} (f : α → β) (l : List α) (i : ℕ) (da : α)
    (db : β) (h : i < l.length) :
    (l.map f).getD i db = f (l.getD i da) := by
  rw [List.getD_eq_getElem _ _ (by rw [List.length_map]; omega),
    List.getElem_map, List.getD_eq_getElem _ _ h]

theorem set_replicate_getD (N : ℕ) (factor : ℝ) (i : ℕ) (h : i < N) :
    ((List.replicate N (0 : ℝ)).set 0 factor).getD i 0 =
      if i = 0 then factor else 0 := by
  rw [List.getD_eq_getElem _ _
    (by rw [List.length_set, List.length_replicate]; omega)]
  rw [List.getElem_set]
  by_cases h0 : i = 0
  · simp [h0]
  · simp [h0, Ne.symm h0]

theorem analytic_row {x t : List ℝ} {D c_s : ℝ} {logx : Bool} {i : ℕ}
    (hi : i < t.length) :
    (analytic x t D logx c_s).getD i [] =
      x.map (fun xj => analyticPoint xj (t.getD i 0) D logx c_s) := by
  rw [analytic, List.getD_eq_getElem _ _ (by simpa using hi), List.getElem_map,
    List.getD_eq_getElem _ _ hi]

/-- Arithmetic mean of a vector, `np.average(v)`. -/
noncomputable def average (l : List ℝ) : ℝ := l.sum / l.length

/-- The species-`k` slice `C[:, :, k]` of a `[time][cell][species]` array. -/
noncomputable def sliceSpecies (k : ℕ) (C : List (List (List ℝ))) :
    List (List ℝ) :=
  C.map (fun row => row.map (fun cell => cell.getD k 0))

/-- Modelled from the spec: `spat_ave_rmsd_vs_time` is imported from
`chemreac.util.testing`, which is not part of this repository.  The spec
describes the metric as the "spatial-average RMSD between the solver's
output for the target species and the analytic reference" per output time:
for each time row, the root of the spatial mean of the squared deviation. -/
noncomputable def spat_ave_rmsd_vs_time (A B : List (List ℝ)) : List ℝ :=
  List.zipWith (fun a b =>
    Real.sqrt ((List.zipWith (fun u v => (u - v) ^ 2) a b).sum / a.length)) A B

/-- `spat_ave_rmsd_over_atol` of `integrate_rd` in `const_surf_conc.py`:
`spat_ave_rmsd_vs_time(Cout[:, :, 1], Cref[:, :, 0]) / atol`
(the per-time error series). -/
noncomputable def spat_ave_rmsd_over_atol (Cout Cref3 : List (List (List ℝ)))
    (atol : ℝ) : List ℝ :=
  (spat_ave_rmsd_vs_time (sliceSpecies 1 Cout) (sliceSpecies 0 Cref3)).map
    (fun r => r / atol)

/-- `tot_ave_rmsd_over_atol = np.average(spat_ave_rmsd_over_atol)`
(the scalar aggregate). -/
noncomputable def tot_ave_rmsd_over_atol (Cout Cref3 : List (List (List ℝ)))
    (atol : ℝ) : ℝ :=
  average (spat_ave_rmsd_over_atol Cout Cref3 atol)

/-- C5: the per-time error series entry at time `i` is the spatial-average
RMSD between the species-1 slice of the solver output and the species-0 slice
of the analytic reference, divided by `atol`; the scalar aggregate is the
time-average (sum over times divided by their number) of that series, and
both forms are produced, the series having one entry per common output
time. -/
theorem C5_error_metric (Cout Cref3 : List (List (List ℝ))) (atol : ℝ)
    (i : ℕ) (hi : i < Cout.length) (hi2 : i < Cref3.length) :
    (spat_ave_rmsd_over_atol Cout Cref3 atol).getD i 0 =
      Real.sqrt ((List.zipWith (fun u v => (u - v) ^ 2)
          ((sliceSpecies 1 Cout).getD i [])
          ((sliceSpecies 0 Cref3).getD i [])).sum /
        ((sliceSpecies 1 Cout).getD i []).length) / atol ∧
    tot_ave_rmsd_over_atol Cout Cref3 atol =
      (spat_ave_rmsd_over_atol Cout Cref3 atol).sum /
        (spat_ave_rmsd_over_atol Cout Cref3 atol).length ∧
    (spat_ave_rmsd_over_atol Cout Cref3 atol).length =
      min Cout.length Cref3.length := by
  have hA : i < (sliceSpecies 1 Cout).length := by
    rw [sliceSpecies, List.length_map]; exact hi
  have hB : i < (sliceSpecies 0 Cref3).length := by
    rw [sliceSpecies, List.length_map]; exact hi2
  have hlen2 : i <
      (spat_ave_rmsd_vs_time (sliceSpecies 1 Cout)
        (sliceSpecies 0 Cref3)).length := by
    rw [spat_ave_rmsd_vs_time, List.length_zipWith]
    omega
  refine ⟨?_, rfl, ?_⟩
  · rw [spat_ave_rmsd_over_atol,
      map_getD _ _ i (0 : ℝ) (0 : ℝ) hlen2]
    rw [spat_ave_rmsd_vs_time,
      zipWith_getD _ _ _ i ([] : List ℝ) ([] : List ℝ) (0 : ℝ) hA hB]
  · rw [spat_ave_rmsd_over_atol, List.length_map, spat_ave_rmsd_vs_time,
      List.length_zipWith, sliceSpecies, List.length_map, sliceSpecies,
      List.length_map]

/-- Witness for C5 at a one-time, one-cell field. -/
theorem C5_error_metric_witness :
    (0 < ([[[(0 : ℝ), 1]]] : List (List (List ℝ))).length ∧
     0 < ([[[(2 : ℝ)]]] : List (List (List ℝ))).length) ∧
    ((spat_ave_rmsd_over_atol [[[(0 : ℝ), 1]]] [[[(2 : ℝ)]]] 1).getD 0 0 =
      Real.sqrt ((List.zipWith (fun u v => (u - v) ^ 2)
          ((sliceSpecies 1 [[[(0 : ℝ), 1]]]).getD 0 [])
          ((sliceSpecies 0 [[[(2 : ℝ)]]]).getD 0 [])).sum /
        ((sliceSpecies 1 [[[(0 : ℝ), 1]]]).getD 0 []).length) / 1 ∧
     tot_ave_rmsd_over_atol [[[(0 : ℝ), 1]]] [[[(2 : ℝ)]]] 1 =
      (spat_ave_rmsd_over_atol [[[(0 : ℝ), 1]]] [[[(2 : ℝ)]]] 1).sum /
        (spat_ave_rmsd_over_atol [[[(0 : ℝ), 1]]] [[[(2 : ℝ)]]] 1).length ∧
     (spat_ave_rmsd_over_atol [[[(0 : ℝ), 1]]] [[[(2 : ℝ)]]] 1).length =
      min ([[[(0 : ℝ), 1]]] : List (List (List ℝ))).length
        ([[[(2 : ℝ)]]] : List (List (List ℝ))).length) :=
  ⟨⟨Nat.zero_lt_one, Nat.zero_lt_one⟩,
   C5_error_metric [[[(0 : ℝ), 1]]] [[[(2 : ℝ)]]] 1 0 Nat.zero_lt_one
     Nat.zero_lt_one⟩

/-- `modulation = [1 if (i == 0) else 0 for i in range(N)]` from
`integrate_rd` in `const_surf_conc.py`. -/
def modulation (N : ℕ) : List ℤ :=
  (List.range N).map (fun (i : ℕ) => if i = 0 then 1 else 0)

/-- The `modulated_rxns=[0, 1]` constructor argument: both reactions are
declared modulated. -/
def modulated_rxns : List ℕ := [0, 1]

/-- The `modulation=[modulation, modulation]` constructor argument: the same
per-cell multiplier vector is attached to both reactions. -/
def modulationArg (N : ℕ) : List (List ℤ) := [modulation N, modulation N]

/-- `source = np.zeros_like(Cref[0, ...]); source[0, :] = factor`: the
boundary-source column of the initial condition. -/
noncomputable def source (N : ℕ) (factor : ℝ) : List ℝ :=
  (List.replicate N 0).set 0 factor

/-- `Cref = analytic(rd.xcenters, tout, D, x0, xend, logx)` with
`tout = np.linspace(t0, tend, nt)` and the default surface concentration
`c_s = 1`. -/
noncomputable def Cref (xc : List ℝ) (t0 tend : ℝ) (nt : ℕ) (D : ℝ)
    (logx : Bool) : List (List ℝ) :=
  analytic xc (linspace t0 tend nt) D logx 1

/-- `y0 = np.concatenate((source, Cref[0, ...]), axis=1)`: row `i` of the
N-by-2 initial condition is `[source_i, Cref[0]_i]`. -/
noncomputable def y0 (N : ℕ) (factor : ℝ) (xc : List ℝ) (t0 tend : ℝ)
    (nt : ℕ) (D : ℝ) (logx : Bool) : List (List ℝ) :=
  List.zipWith (fun s c => [s, c]) (source N factor)
    ((Cref xc t0 tend nt D logx).getD 0 [])

/-- C9: the boundary source is confined to the first grid cell: the
modulation vector is 1 at cell 0 and 0 elsewhere and is attached to both
reactions, and the `N`-by-2 initial condition pairs a source column equal to
`factor` at cell 0 (0 elsewhere) with the analytic reference profile at
`t0`. -/
theorem C9_boundary_source (N nt : ℕ) (factor t0 tend D : ℝ) (xc : List ℝ)
    (logx : Bool) (i : ℕ) (hi : i < N) (hnt : 1 ≤ nt)
    (hxc : xc.length = N) :
    (modulation N).getD i 0 = (if i = 0 then 1 else 0) ∧
    modulationArg N = [modulation N, modulation N] ∧
    modulated_rxns = [0, 1] ∧
    (y0 N factor xc t0 tend nt D logx).length = N ∧
    (y0 N factor xc t0 tend nt D logx).getD i [] =
      [if i = 0 then factor else 0,
       analyticPoint (xc.getD i 0) t0 D logx 1] := by
  have hrow0 : (Cref xc t0 tend nt D logx).getD 0 [] =
      xc.map (fun xj => analyticPoint xj t0 D logx 1) := by
    rw [Cref, analytic_row (by rw [linspace_length]; omega),
      linspace_getD_zero _ _ _ hnt]
  have hsrc : (source N factor).length = N := by
    rw [source, List.length_set, List.length_replicate]
  have hylen : (y0 N factor xc t0 tend nt D logx).length = N := by
    rw [y0, List.length_zipWith, hsrc, hrow0, List.length_map, hxc, min_self]
  refine ⟨?_, rfl, rfl, hylen, ?_⟩
  · rw [modulation,
      List.getD_eq_getElem _ _ (by rw [List.length_map, List.length_range]; omega),
      List.getElem_map, List.getElem_range]
  · rw [y0, zipWith_getD _ _ _ i (0 : ℝ) (0 : ℝ) ([] : List ℝ)
      (by rw [hsrc]; omega)
      (by rw [hrow0, List.length_map, hxc]; omega)]
    rw [source, set_replicate_getD N factor i hi]
    rw [hrow0, map_getD _ _ i (0 : ℝ) (0 : ℝ) (by rw [hxc]; omega)]

/-- Witness for C9 at `N = 1`, `nt = 1`, `xc = [0]`. -/
theorem C9_boundary_source_witness :
    (0 < 1 ∧ 1 ≤ 1 ∧ ([(0 : ℝ)]).length = 1) ∧
    ((modulation 1).getD 0 0 = (if 0 = 0 then 1 else 0) ∧
     modulationArg 1 = [modulation 1, modulation 1] ∧
     modulated_rxns = [0, 1] ∧
     (y0 1 5 [0] 1 13 1 1 false).length = 1 ∧
     (y0 1 5 [0] 1 13 1 1 false).getD 0 [] =
       [if (0 : ℕ) = 0 then (5 : ℝ) else 0,
        analyticPoint (([(0 : ℝ)]).getD 0 0) 1 1 false 1]) :=
  ⟨⟨Nat.zero_lt_one, le_refl 1, rfl⟩,
   C9_boundary_source 1 1 5 1 13 1 [0] false 0 Nat.zero_lt_one
     (le_refl 1) rfl⟩

/-!
### Seeding and grid reproducibility

`integrate_rd` runs `if random_seed: np.random.seed(random_seed)` before
calling `generate_grid`.  The RNG state is explicit here: seeding replaces
it, and a falsy (zero) seed leaves the ambient state untouched.
-/

/-- The seeding step of `integrate_rd`:
`if random_seed: np.random.seed(random_seed)`.  The resulting RNG state is
the seed when the seed is truthy (nonzero), otherwise whatever ambient
state the process happened to have. -/
def seedRng (ambient random_seed : ℕ) : ℕ :=
  if random_seed ≠ 0 then random_seed else ambient

/-- Modelled from the spec: `generate_grid` (from `chemreac.util.grid`) is
not part of this repository.  The spec says a grid is "derived from
(x0, xend, N, log-spacing flag, optional random perturbation with a seed)",
with grid-generation logic otherwise delegated; we model the deterministic
part as the uniform ladder of the `N+1` cell edges from `x0` to `xend` and
the random perturbation as an arbitrary function `perturb` of the RNG state
and the edge index, added only when `random` is set. -/
def generate_grid (perturb : ℕ → ℕ → ℚ) (x0 xend : ℚ) (N : ℕ)
    (random : Bool) (rng : ℕ) : List ℚ :=
  (List.range (N + 1)).map (fun (i : ℕ) =>
    x0 + (xend - x0) * (i : ℚ) / (N : ℚ) +
      (if random then perturb rng i else 0))

/-- The grid produced inside one `integrate_rd` call: the RNG is seeded
first (when the seed is truthy), then the grid is generated from the
resulting state. -/
def gridInRun (perturb : ℕ → ℕ → ℚ) (x0 xend : ℚ) (N : ℕ) (random : Bool)
    (random_seed ambient : ℕ) : List ℚ :=
  generate_grid perturb x0 xend N random (seedRng ambient random_seed)

/-- A sweep over the resolution ladder as driven by
`analytic_N_scaling.main`: each `integrate_rd` call seeds the RNG with the
same seed, generates its grid, and obtains that point's error value from
the (deterministic) external solver. -/
def sweepErrors (solve : List ℚ → ℚ) (perturb : ℕ → ℕ → ℚ) (x0 xend : ℚ)
    (random : Bool) (random_seed ambient : ℕ) (ns : List ℕ) : List ℚ :=
  ns.map (fun N =>
    solve (gridInRun perturb x0 xend N random random_seed ambient))

/-- C8 (amended): for a truthy (nonzero) seed, the RNG is deterministically
seeded before each grid generation, so two runs with identical arguments and
the same seed produce identical grids — whatever ambient RNG states the two
runs started from — and hence bit-identical error series given a
deterministic external solver. -/
theorem C8_reproducible_for_nonzero_seed (solve : List ℚ → ℚ)
    (perturb : ℕ → ℕ → ℚ) (x0 xend : ℚ) (random : Bool) (s σ1 σ2 : ℕ)
    (ns : List ℕ) (hs : s ≠ 0) :
    (∀ N, gridInRun perturb x0 xend N random s σ1 =
      gridInRun perturb x0 xend N random s σ2) ∧
    sweepErrors solve perturb x0 xend random s σ1 ns =
      sweepErrors solve perturb x0 xend random s σ2 ns := by
  have h : seedRng σ1 s = seedRng σ2 s := by
    rw [seedRng, seedRng, if_pos hs, if_pos hs]
  constructor
  · intro N
    rw [gridInRun, gridInRun, h]
  · rw [sweepErrors, sweepErrors]
    simp only [gridInRun, h]

/-- Witness for C8 (amended) at seed 42 and ambient states 0 and 1. -/
theorem C8_reproducible_for_nonzero_seed_witness :
    (42 ≠ 0) ∧
    ((∀ N, gridInRun (fun rng i => rng + i) 0 1 N true 42 0 =
        gridInRun (fun rng i => rng + i) 0 1 N true 42 1) ∧
     sweepErrors (fun l => l.sum) (fun rng i => rng + i) 0 1 true 42 0 [8, 16] =
       sweepErrors (fun l => l.sum) (fun rng i => rng + i) 0 1 true 42 1 [8, 16]) :=
  ⟨by decide,
   C8_reproducible_for_nonzero_seed (fun l => l.sum) (fun rng i => rng + i)
     0 1 true 42 0 1 [8, 16] (by decide)⟩

/-- C8 counterexample: with the falsy seed 0 the RNG is not seeded at all,
so two runs of `integrate_rd` with identical arguments and the same seed but
different ambient RNG states produce different grids when random
perturbation is enabled — the claimed unconditional reproducibility fails. -/
theorem gridInRun_seed_zero_state_zero :
    gridInRun (fun rng _ => (rng : ℚ)) 0 1 1 true 0 0 = [0, 1] := by
  rw [gridInRun, generate_grid]
  norm_num [seedRng, List.range_succ]

theorem gridInRun_seed_zero_state_one :
    gridInRun (fun rng _ => (rng : ℚ)) 0 1 1 true 0 1 = [1, 2] := by
  rw [gridInRun, generate_grid]
  norm_num [seedRng, List.range_succ]

theorem C8_counterexample :
    gridInRun (fun rng _ => (rng : ℚ)) 0 1 1 true 0 0 ≠
      gridInRun (fun rng _ => (rng : ℚ)) 0 1 1 true 0 1 := by
  rw [gridInRun_seed_zero_state_zero, gridInRun_seed_zero_state_one]
  simp

/-- C10: `integrate_rd` skips seeding entirely for the falsy seed 0 (the
ambient RNG state is left untouched), so with random perturbation enabled
two runs with seed 0 can produce different grids; the reproducibility
guarantee holds for truthy (nonzero) seeds. -/
theorem C10_zero_seed_skips_seeding :
    (∀ ambient, seedRng ambient 0 = ambient) ∧
    (∃ perturb : ℕ → ℕ → ℚ, ∃ σ1 σ2 : ℕ,
      gridInRun perturb 0 1 1 true 0 σ1 ≠ gridInRun perturb 0 1 1 true 0 σ2) ∧
    (∀ perturb : ℕ → ℕ → ℚ, ∀ x0 xend : ℚ, ∀ N : ℕ, ∀ random : Bool,
      ∀ s σ1 σ2 : ℕ, s ≠ 0 →
        gridInRun perturb x0 xend N random s σ1 =
          gridInRun perturb x0 xend N random s σ2) := by
  refine ⟨fun ambient => rfl, ?_, ?_⟩
  · refine ⟨fun rng _ => (rng : ℚ), 0, 1, ?_⟩
    rw [gridInRun_seed_zero_state_zero, gridInRun_seed_zero_state_one]
    simp
  · intro perturb x0 xend N random s σ1 σ2 hs
    rw [gridInRun, gridInRun, seedRng, seedRng, if_pos hs, if_pos hs]

end Chemreac
